import Mathlib

/-!
Verification of the export-extraction engine of `context-map` (`src/parser.rs`),
shallowly embedded in Lean 4.

Source text is modelled at the byte level (`List Nat`, each element a UTF-8
byte), because `parser.rs` works exclusively with byte offsets, byte slices and
ASCII byte tests.  The tree-sitter provider is modelled as a black box: an
abstract function `List Nat → Option Tree` producing a concrete syntax tree
(`RawNode`) whose nodes carry a kind tag, a named-ness flag, an optional field
name, a byte range and a starting row, plus the tree-level `hasError` bit that
`tree.root_node().has_error()` reports.
-/

namespace ContextMap

/-- UTF-8 bytes of an ASCII Lean string literal (all literals used in
`parser.rs` patterns are ASCII, so their UTF-8 bytes are their code points). -/
def strBytes (s : String) : List Nat := s.toList.map Char.toNat

/-- `&s[a..b]` on byte offsets: the bytes of `s` from `a` (inclusive) to `b`
(exclusive). -/
def slice (s : List Nat) (a b : Nat) : List Nat := (s.drop a).take (b - a)

/-- One byte of `str::to_ascii_lowercase`. -/
def toLowerByte (b : Nat) : Nat := if 65 ≤ b ∧ b ≤ 90 then b + 32 else b

/-- `str::to_ascii_lowercase`: ASCII upper-case bytes are lowered, every other
byte is unchanged (so the length in bytes is preserved). -/
def toLowerStr (s : List Nat) : List Nat := s.map toLowerByte

/-- `str::find(pat)`: byte index of the first occurrence of `pat` in `hay`,
if any. -/
def findSub (hay pat : List Nat) : Option Nat :=
  if pat.isPrefixOf hay then some 0
  else
    match hay with
    | [] => none
    | _ :: t => (findSub t pat).map (· + 1)

/-- `str::contains(pat)` as used on the attribute text. -/
def containsSub (hay pat : List Nat) : Bool := (findSub hay pat).isSome

/-- ASCII whitespace bytes (the whitespace actually reaching `trim` /
`trim_start` in this code is ASCII). -/
def isWsByte (b : Nat) : Bool := b == 32 || b == 9 || b == 10 || b == 11 || b == 12 || b == 13

/-- `str::trim_start` at the byte level. -/
def trimStart (s : List Nat) : List Nat := s.dropWhile isWsByte

/-- `str::trim` at the byte level. -/
def trimBytes (s : List Nat) : List Nat := ((s.dropWhile isWsByte).reverse.dropWhile isWsByte).reverse

/-- `walker::SourceKind`: the dialect tag of a candidate file or script region
(`Ts` = Plain, `Tsx` = JsxFlavored, `Vue` = Composite). -/
inductive SourceKind : Type where
  | Ts : SourceKind
  | Tsx : SourceKind
  | Vue : SourceKind
deriving DecidableEq, Repr

/-- `parser::ExtractedFunction`. -/
structure ExtractedFunction : Type where
  name : List Nat
  signature : List Nat
  line : Nat
deriving DecidableEq, Repr

/-- `parser::ExtractedType`. -/
structure ExtractedType : Type where
  name : List Nat
  line : Nat
deriving DecidableEq, Repr

/-- `parser::ExtractedExports`. -/
structure ExtractedExports : Type where
  functions : List ExtractedFunction
  types : List ExtractedType
deriving DecidableEq, Repr

/-- A concrete syntax-tree node as the tree-sitter black box hands it to
`parser.rs`: a kind tag, whether the node is named, the field name its parent
addresses it by (if any), its byte range and starting row, and its children in
order. -/
inductive RawNode : Type where
  | mk (kind : String) (isNamed : Bool) (fieldName : Option String)
      (startByte endByte startRow : Nat) (children : List RawNode) : RawNode

/-- Node kind tag (`Node::kind`). -/
def RawNode.kind : RawNode → String
  | .mk k _ _ _ _ _ _ => k

/-- Whether the node is a named node (`Node::is_named`). -/
def RawNode.isNamed : RawNode → Bool
  | .mk _ n _ _ _ _ _ => n

/-- The field name under which the parent holds this child, if any. -/
def RawNode.fieldName : RawNode → Option String
  | .mk _ _ f _ _ _ _ => f

/-- Start of the node's byte range (`Node::byte_range().start`). -/
def RawNode.startByte : RawNode → Nat
  | .mk _ _ _ s _ _ _ => s

/-- End of the node's byte range (`Node::byte_range().end`). -/
def RawNode.endByte : RawNode → Nat
  | .mk _ _ _ _ e _ _ => e

/-- Starting row of the node (`Node::start_position().row`), 0-based. -/
def RawNode.startRow : RawNode → Nat
  | .mk _ _ _ _ _ r _ => r

/-- All children in order (`Node::children`). -/
def RawNode.children : RawNode → List RawNode
  | .mk _ _ _ _ _ _ c => c

/-- `Node::named_children`: the children that are named nodes. -/
def RawNode.namedChildren (n : RawNode) : List RawNode := n.children.filter (·.isNamed)

/-- `Node::child_by_field_name`: the first child carrying the given field
name. -/
def RawNode.childByFieldName (n : RawNode) (f : String) : Option RawNode :=
  n.children.find? (fun c => c.fieldName == some f)

/-- A parsed tree as returned by the provider: its root node together with the
error bit that `tree.root_node().has_error()` reports (true iff the tree
contains a syntax error anywhere). -/
structure Tree : Type where
  rootNode : RawNode
  hasError : Bool

/-- `text_for`: the slice of the source at the node's byte range. -/
def text_for (node : RawNode) (source : List Nat) : List Nat :=
  slice source node.startByte node.endByte

/-- Byte-lexicographic `≤` on byte strings: `a.cmp(&b) != Greater` for Rust
strings (Rust compares UTF-8 bytes lexicographically). -/
def bytesLe : List Nat → List Nat → Bool
  | [], _ => true
  | _ :: _, [] => false
  | a :: as, b :: bs => if a < b then true else if b < a then false else bytesLe as bs

/-- The callable comparator of `parser.rs`
(`a.line.cmp(&b.line).then(a.name.cmp(&b.name))`) read as a `≤` test:
true iff the comparator does not answer `Greater`. -/
def funLE (a b : ExtractedFunction) : Bool :=
  if a.line < b.line then true
  else if b.line < a.line then false
  else bytesLe a.name b.name

/-- The type comparator of `parser.rs` read as a `≤` test. -/
def typeLE (a b : ExtractedType) : Bool :=
  if a.line < b.line then true
  else if b.line < a.line then false
  else bytesLe a.name b.name

/-- Stable insertion of `a` into an already sorted list: `a` moves past every
element it does not strictly precede, so it lands after any element it ties
with. -/
def insertStable (le : α → α → Bool) (a : α) : List α → List α
  | [] => [a]
  | b :: bs => if le a b && !(le b a) then a :: b :: bs else b :: insertStable le a bs

/-- Stable sort by the boolean comparator `le`: elements are inserted in their
original order, each after all its ties, which is exactly the stability
contract of Rust's `slice::sort_by`.  For claims below only sortedness and the
multiset of elements matter, and any stable sort by the same comparator
produces the same list. -/
def sortBy (le : α → α → Bool) (l : List α) : List α :=
  l.foldl (fun acc a => insertStable le a acc) []

/-- The final in-place stable sorts of both sequences by `(line, name)`
(`sort_by` with the comparator above). -/
def sortExports (e : ExtractedExports) : ExtractedExports :=
  { functions := sortBy funLE e.functions, types := sortBy typeLE e.types }

/-- `first_named_child`: the first named child that is neither an
`export_clause` nor a `namespace_export`. -/
def first_named_child (node : RawNode) : Option RawNode :=
  node.namedChildren.find? (fun child =>
    !(child.kind == "export_clause" || child.kind == "namespace_export"))

/-- `function_declaration_export`: build the callable for an exported plain
function declaration; `none` when the declaration has no `name` field. -/
def function_declaration_export (node : RawNode) (source : List Nat) : Option ExtractedFunction :=
  match node.childByFieldName "name" with
  | none => none
  | some name_node =>
    let name := text_for name_node source
    let parameters :=
      match node.childByFieldName "parameters" with
      | some n => text_for n source
      | none => strBytes "()"
    let return_type :=
      match node.childByFieldName "return_type" with
      | some n => trimBytes (text_for n source)
      | none => []
    let signature :=
      if return_type.isEmpty then name ++ parameters
      else name ++ parameters ++ [32] ++ return_type
    some { name := name, signature := signature, line := name_node.startRow + 1 }

/-- `type_like_export`: build the type record for an exported interface or
type-alias declaration; `none` when there is no `name` field. -/
def type_like_export (node : RawNode) (source : List Nat) : Option ExtractedType :=
  match node.childByFieldName "name" with
  | none => none
  | some name_node =>
    some { name := text_for name_node source, line := name_node.startRow + 1 }

/-- `is_const_lexical`: the first child token's text, trimmed, equals
`const`. -/
def is_const_lexical (node : RawNode) (source : List Nat) : Bool :=
  match node.children.head? with
  | some first => trimBytes (text_for first source) == strBytes "const"
  | none => false

/-- `build_from_arrow`: callable for a const declarator initialized by an
arrow function; a parameter text that does not start with `(` (after
`trim_start`) is wrapped in parentheses. -/
def build_from_arrow (name : List Nat) (name_node node : RawNode) (source : List Nat) :
    ExtractedFunction :=
  let raw_params :=
    match node.childByFieldName "parameters" with
    | some n => text_for n source
    | none =>
      match node.childByFieldName "parameter" with
      | some n => text_for n source
      | none => strBytes "()"
  let parameters :=
    if (trimStart raw_params).head? == some 40 then raw_params
    else 40 :: raw_params ++ [41]
  let return_type :=
    match node.childByFieldName "return_type" with
    | some n => trimBytes (text_for n source)
    | none => []
  let signature :=
    if return_type.isEmpty then name ++ parameters
    else name ++ parameters ++ [32] ++ return_type
  { name := name, signature := signature, line := name_node.startRow + 1 }

/-- `build_from_function_expr`: callable for a const declarator initialized by
a function expression. -/
def build_from_function_expr (name : List Nat) (name_node node : RawNode) (source : List Nat) :
    ExtractedFunction :=
  let parameters :=
    match node.childByFieldName "parameters" with
    | some n => text_for n source
    | none => strBytes "()"
  let return_type :=
    match node.childByFieldName "return_type" with
    | some n => trimBytes (text_for n source)
    | none => []
  let signature :=
    if return_type.isEmpty then name ++ parameters
    else name ++ parameters ++ [32] ++ return_type
  { name := name, signature := signature, line := name_node.startRow + 1 }

/-- `const_callable_exports`: every declarator of the lexical declaration whose
name is a simple identifier and whose initializer is an arrow function or a
function expression contributes one callable, in declarator order. -/
def const_callable_exports (node : RawNode) (source : List Nat) : List ExtractedFunction :=
  (node.namedChildren.filter (·.kind == "variable_declarator")).foldl
    (fun out declarator =>
      match declarator.childByFieldName "name" with
      | none => out
      | some name_node =>
        if name_node.kind ≠ "identifier" then out
        else
          match declarator.childByFieldName "value" with
          | none => out
          | some value_node =>
            let name := text_for name_node source
            if value_node.kind == "arrow_function" then
              out ++ [build_from_arrow name name_node value_node source]
            else if value_node.kind == "function" then
              out ++ [build_from_function_expr name name_node value_node source]
            else out)
    []

/-- One step of the top-level loop of `extract_from_tree`: process one child of
the root node, accumulating into `acc`. -/
def exportStep (source : List Nat) (acc : ExtractedExports) (child : RawNode) :
    ExtractedExports :=
  if child.kind ≠ "export_statement" then acc
  else
    match first_named_child child with
    | none => acc
    | some exported =>
      if exported.kind == "function_declaration" then
        match function_declaration_export exported source with
        | some extracted => { acc with functions := acc.functions ++ [extracted] }
        | none => acc
      else if exported.kind == "lexical_declaration" then
        if is_const_lexical exported source then
          { acc with functions := acc.functions ++ const_callable_exports exported source }
        else acc
      else if exported.kind == "interface_declaration"
          || exported.kind == "type_alias_declaration" then
        match type_like_export exported source with
        | some extracted => { acc with types := acc.types ++ [extracted] }
        | none => acc
      else acc

/-- `extract_from_tree`: walk the root's children, collect exported callables
and types, then sort both sequences by `(line, name)`. -/
def extract_from_tree (tree : Tree) (source : List Nat) : ExtractedExports :=
  sortExports (tree.rootNode.children.foldl (exportStep source) ⟨[], []⟩)

/-- `parse_with`: run the provider; a missing tree fails with
`failed to parse file`, a tree reporting an error fails with
`syntax parse error`, otherwise extract. -/
def parse_with (parse : List Nat → Option Tree) (source : List Nat) :
    Except String ExtractedExports :=
  match parse source with
  | none => Except.error "failed to parse file"
  | some tree =>
    if tree.hasError then Except.error "syntax parse error"
    else Except.ok (extract_from_tree tree source)

/-- `parser::VueScriptBlock`: one script region of a composite file. -/
structure VueScriptBlock : Type where
  content : List Nat
  line_offset : Nat
  kind : SourceKind
deriving DecidableEq, Repr

/-- The `lang='tsx'` pattern (single quotes), written via byte 39. -/
def langSqPat : List Nat := strBytes "lang=" ++ [39] ++ strBytes "tsx" ++ [39]

/-- The `lang="tsx"` pattern (double quotes). -/
def langDqPat : List Nat := strBytes "lang=\"tsx\""

/-- The dialect classification of lines 129–136 of `parser.rs`: `Tsx` iff the
lowercased attribute text contains `lang="tsx"`, `lang='tsx'` or `lang=tsx`
as a substring, else `Ts`. -/
def classifyAttrs (attrs : List Nat) : SourceKind :=
  if containsSub attrs langDqPat || containsSub attrs langSqPat
      || containsSub attrs (strBytes "lang=tsx") then SourceKind.Tsx
  else SourceKind.Ts

/-- The scan loop of `extract_vue_scripts`, with an explicit fuel counter in
place of Rust's unbounded `while`.  Each iteration advances `searchFrom` past
the closing tag (strictly, by at least ten bytes), and the loop only continues
while `searchFrom` is at most the text length, so fuel `source.length + 1`
never runs out (see `scanLoop_fuel_irrelevant`). -/
def scanLoop (source : List Nat) : Nat → Nat → List VueScriptBlock
  | _, 0 => []
  | searchFrom, fuel + 1 =>
    let lower := toLowerStr source
    match findSub (lower.drop searchFrom) (strBytes "<script") with
    | none => []
    | some tagRel =>
      let tagStart := searchFrom + tagRel
      match findSub (lower.drop tagStart) [62] with
      | none => []
      | some tagEndRel =>
        let tagEnd := tagStart + tagEndRel
        let attrs := slice lower (tagStart + 7) tagEnd
        match findSub (lower.drop (tagEnd + 1)) (strBytes "</script>") with
        | none => []
        | some closeRel =>
          let close_start := tagEnd + 1 + closeRel
          let content_start := tagEnd + 1
          let content_end := close_start
          let rest := scanLoop source (close_start + 9) fuel
          if containsSub attrs (strBytes "src=") then rest
          else
            { content := slice source content_start content_end,
              line_offset := (source.take content_start).count 10,
              kind := classifyAttrs attrs } :: rest

/-- `extract_vue_scripts`: scan the composite text from offset 0. -/
def extract_vue_scripts (source : List Nat) : List VueScriptBlock :=
  scanLoop source 0 (source.length + 1)

/-- `TsExportParser`: the two grammar providers, modelled as black-box parse
functions from source bytes to an optional tree. -/
structure TsExportParser : Type where
  tsParse : List Nat → Option Tree
  tsxParse : List Nat → Option Tree

/-- `extract_exports_from_ts`. -/
def extract_exports_from_ts (p : TsExportParser) (source : List Nat) :
    Except String ExtractedExports :=
  parse_with p.tsParse source

/-- `extract_exports_from_tsx`. -/
def extract_exports_from_tsx (p : TsExportParser) (source : List Nat) :
    Except String ExtractedExports :=
  parse_with p.tsxParse source

/-- The per-block dispatch inside the loop of `extract_exports_from_vue`:
`Tsx` blocks go to the tsx grammar, every other kind to the ts grammar. -/
def blockExtract (p : TsExportParser) (b : VueScriptBlock) :
    Except String ExtractedExports :=
  match b.kind with
  | SourceKind.Tsx => extract_exports_from_tsx p b.content
  | _ => extract_exports_from_ts p b.content

/-- Add a region's line offset to a callable (`export.line += block.line_offset`). -/
def shiftFun (off : Nat) (f : ExtractedFunction) : ExtractedFunction :=
  { f with line := f.line + off }

/-- Add a region's line offset to a type record. -/
def shiftTy (off : Nat) (t : ExtractedType) : ExtractedType :=
  { t with line := t.line + off }

/-- The block loop of `extract_exports_from_vue`: extract each block with the
dialect-appropriate grammar, failing the whole file on the first failing block
(`?` in Rust), shift the block's line numbers by its offset, concatenate, and
on completion sort both sequences by `(line, name)`. -/
def vueLoop (p : TsExportParser) : List VueScriptBlock → ExtractedExports →
    Except String ExtractedExports
  | [], all => Except.ok (sortExports all)
  | b :: rest, all =>
    match blockExtract p b with
    | Except.error e => Except.error e
    | Except.ok extracted =>
      vueLoop p rest
        { functions := all.functions ++ extracted.functions.map (shiftFun b.line_offset),
          types := all.types ++ extracted.types.map (shiftTy b.line_offset) }

/-- `extract_exports_from_vue`. -/
def extract_exports_from_vue (p : TsExportParser) (source : List Nat) :
    Except String ExtractedExports :=
  vueLoop p (extract_vue_scripts source) ⟨[], []⟩

/-- `extract_exports_for_source`: the dialect dispatcher. -/
def extract_exports_for_source (p : TsExportParser) (source : List Nat)
    (kind : SourceKind) : Except String ExtractedExports :=
  match kind with
  | SourceKind.Ts => extract_exports_from_ts p source
  | SourceKind.Tsx => extract_exports_from_tsx p source
  | SourceKind.Vue => extract_exports_from_vue p source

/-- The provider invoked for a block by `extract_exports_from_vue`, isolated:
`Tsx` blocks use the tsx grammar, everything else the ts grammar. -/
def blockParse (p : TsExportParser) (b : VueScriptBlock) : Option Tree :=
  match b.kind with
  | SourceKind.Tsx => p.tsxParse b.content
  | _ => p.tsParse b.content

/-- The payload of a successful extraction (used only to state theorems about
runs where every block succeeds). -/
def okExports : Except String ExtractedExports → ExtractedExports
  | Except.ok e => e
  | Except.error _ => ⟨[], []⟩

/-- Accumulator-style word splitter used by the spec-side attribute reading. -/
def splitWordsGo : List Nat → List Nat → List (List Nat)
  | [], cur => if cur.isEmpty then [] else [cur.reverse]
  | b :: rest, cur =>
    if isWsByte b then
      if cur.isEmpty then splitWordsGo rest []
      else cur.reverse :: splitWordsGo rest []
    else splitWordsGo rest (b :: cur)

/-- Whitespace-separated words of an attribute text. -/
def splitWords (s : List Nat) : List (List Nat) := splitWordsGo s []

/-- Remove one layer of matching surrounding quotes (double, byte 34, or
single, byte 39) from an attribute value, if present. -/
def stripQuotes (v : List Nat) : List Nat :=
  match v.head?, v.getLast? with
  | some q1, some q2 =>
    if ((q1 == 34 && q2 == 34) || (q1 == 39 && q2 == 39)) && 2 ≤ v.length then
      (v.drop 1).dropLast
    else v
  | _, _ => v

/-- Reading of the SPEC's wording for the dialect rule, deliberately not taken
from the source, for comparison with `classifyAttrs`: the tag carries a `lang`
attribute whose value equals `tsx`, compared case-insensitively, with or
without surrounding quotes. -/
def specLangValueEqTsx (attrs : List Nat) : Bool :=
  (splitWords attrs).any fun tok =>
    toLowerStr (tok.take 5) == strBytes "lang=" &&
    toLowerStr (stripQuotes (tok.drop 5)) == strBytes "tsx"

/-- An error-free tree whose root has no children: what the provider returns
for an empty compilation unit. -/
def trivTree : Tree := ⟨⟨"program", true, none, 0, 0, 0, []⟩, false⟩

/-- A provider pair that parses everything into the empty error-free tree. -/
def pTriv : TsExportParser := ⟨fun _ => some trivTree, fun _ => some trivTree⟩

/-- A tree whose root reports `has_error()`. -/
def errTree : Tree := ⟨⟨"program", true, none, 0, 0, 0, []⟩, true⟩

/-- A provider pair that parses everything into a tree reporting an error. -/
def pErr : TsExportParser := ⟨fun _ => some errTree, fun _ => some errTree⟩

/-- The source of spec example `export function greet(name: string): string { return name }`. -/
def greetSrc : List Nat := strBytes "export function greet(name: string): string { return name }"

/-- The `greet` identifier node (field `name`, bytes 16–21, row 0). -/
def greetNameNode : RawNode := ⟨"identifier", true, some "name", 16, 21, 0, []⟩

/-- The `(name: string)` parameter-list node (field `parameters`). -/
def greetParamsNode : RawNode := ⟨"formal_parameters", true, some "parameters", 21, 35, 0, []⟩

/-- The `: string` return-type node (field `return_type`). -/
def greetRetNode : RawNode := ⟨"type_annotation", true, some "return_type", 35, 43, 0, []⟩

/-- The function-declaration node for `greet`, with its keyword, name,
parameters, return type and body children. -/
def greetFnNode : RawNode :=
  ⟨"function_declaration", true, none, 7, 60, 0,
    [⟨"function", false, none, 7, 15, 0, []⟩, greetNameNode, greetParamsNode, greetRetNode,
     ⟨"statement_block", true, some "body", 45, 60, 0, []⟩]⟩

/-- The tree the ts grammar produces for `greetSrc`. -/
def greetTree : Tree :=
  ⟨⟨"program", true, none, 0, 60, 0,
    [⟨"export_statement", true, none, 0, 60, 0,
      [⟨"export", false, none, 0, 6, 0, []⟩, greetFnNode]⟩]⟩, false⟩

/-- A provider pair answering `greetTree` for every input. -/
def pGreet : TsExportParser := ⟨fun _ => some greetTree, fun _ => some greetTree⟩

/-- The source of spec example `export const id = x => x;`. -/
def idSrc : List Nat := strBytes "export const id = x => x;"

/-- The arrow-function node of the `id` example: its single bare parameter `x`
sits under the `parameter` field (there is no `parameters` field). -/
def idArrowNode : RawNode :=
  ⟨"arrow_function", true, some "value", 18, 24, 0,
    [⟨"identifier", true, some "parameter", 18, 19, 0, []⟩,
     ⟨"=>", false, none, 20, 22, 0, []⟩,
     ⟨"identifier", true, some "body", 23, 24, 0, []⟩]⟩

/-- The declarator node `id = x => x`. -/
def idDeclaratorNode : RawNode :=
  ⟨"variable_declarator", true, none, 13, 24, 0,
    [⟨"identifier", true, some "name", 13, 15, 0, []⟩,
     ⟨"=", false, none, 16, 17, 0, []⟩, idArrowNode]⟩

/-- The tree the ts grammar produces for `idSrc`. -/
def idTree : Tree :=
  ⟨⟨"program", true, none, 0, 25, 0,
    [⟨"export_statement", true, none, 0, 25, 0,
      [⟨"export", false, none, 0, 6, 0, []⟩,
       ⟨"lexical_declaration", true, none, 7, 25, 0,
         [⟨"const", false, none, 7, 12, 0, []⟩, idDeclaratorNode]⟩]⟩]⟩, false⟩

/-- A provider pair answering `idTree` for every input. -/
def pId : TsExportParser := ⟨fun _ => some idTree, fun _ => some idTree⟩

/-- The source of spec example: an internal function, a local re-export and a
module re-export, none of which is an extractable export. -/
def reexSrc : List Nat :=
  strBytes "function internalFn() {}\nexport { internalFn }\nexport { externalFn } from \"./dep\""

/-- The tree the ts grammar produces for `reexSrc`: a plain function
declaration, then an export statement holding only an `export_clause`, then an
export statement holding an `export_clause` and the source `string` node. -/
def reexTree : Tree :=
  ⟨⟨"program", true, none, 0, 82, 0,
    [⟨"function_declaration", true, none, 0, 24, 0,
      [⟨"function", false, none, 0, 8, 0, []⟩,
       ⟨"identifier", true, some "name", 9, 19, 0, []⟩,
       ⟨"formal_parameters", true, some "parameters", 19, 21, 0, []⟩,
       ⟨"statement_block", true, some "body", 22, 24, 0, []⟩]⟩,
     ⟨"export_statement", true, none, 25, 47, 1,
      [⟨"export", false, none, 25, 31, 1, []⟩,
       ⟨"export_clause", true, none, 32, 47, 1, []⟩]⟩,
     ⟨"export_statement", true, none, 48, 82, 2,
      [⟨"export", false, none, 48, 54, 2, []⟩,
       ⟨"export_clause", true, none, 55, 69, 2, []⟩,
       ⟨"from", false, none, 70, 74, 2, []⟩,
       ⟨"string", true, some "source", 75, 82, 2, []⟩]⟩]⟩, false⟩

/-- The `export_clause` node of a bare local re-export `export { x }`. -/
def c7Clause : RawNode := ⟨"export_clause", true, none, 7, 12, 0, []⟩

/-- The export statement of `export { x }`. -/
def c7Stmt : RawNode :=
  ⟨"export_statement", true, none, 0, 12, 0,
    [⟨"export", false, none, 0, 6, 0, []⟩, c7Clause]⟩

/-- The tree for a file holding only `export { x }`. -/
def c7Tree : Tree := ⟨⟨"program", true, none, 0, 12, 0, [c7Stmt]⟩, false⟩

/-- An anonymous default-exported function: `export default function () {}`;
the function-declaration node has no `name` field. -/
def anonFnNode : RawNode :=
  ⟨"function_declaration", true, none, 15, 29, 0,
    [⟨"function", false, none, 15, 23, 0, []⟩,
     ⟨"formal_parameters", true, some "parameters", 24, 26, 0, []⟩,
     ⟨"statement_block", true, some "body", 27, 29, 0, []⟩]⟩

/-- The tree for `export default function () {}`. -/
def anonTree : Tree :=
  ⟨⟨"program", true, none, 0, 29, 0,
    [⟨"export_statement", true, none, 0, 29, 0,
      [⟨"export", false, none, 0, 6, 0, []⟩,
       ⟨"default", false, none, 7, 14, 0, []⟩, anonFnNode]⟩]⟩, false⟩

theorem findSub_prefix : ∀ (l pat : List Nat) (i : Nat),
    findSub l pat = some i → pat <+: l.drop i := by
  intro l
  induction l with
  | nil =>
    intro pat i h
    rw [findSub] at h
    split at h
    · rename_i hp
      cases h
      simpa using hp
    · simp at h
  | cons a t ih =>
    intro pat i h
    rw [findSub] at h
    split at h
    · rename_i hp
      cases h
      simpa using hp
    · rw [Option.map_eq_some'] at h
      obtain ⟨j, hj, rfl⟩ := h
      simpa using ih pat j hj

theorem mem_insertStable {α : Type} (le : α → α → Bool) (a x : α) :
    ∀ l : List α, x ∈ insertStable le a l ↔ x = a ∨ x ∈ l := by
  intro l
  induction l with
  | nil => simp [insertStable]
  | cons b bs ih =>
    rw [insertStable]
    split
    · simp [or_comm, or_left_comm]
    · simp only [List.mem_cons, ih]
      tauto

theorem pairwise_insertStable {α : Type} (le : α → α → Bool)
    (htot : ∀ a b, (le a b || le b a) = true)
    (htrans : ∀ a b c, le a b = true → le b c = true → le a c = true) (a : α) :
    ∀ l : List α, l.Pairwise (le · · = true) →
      (insertStable le a l).Pairwise (le · · = true) := by
  intro l
  induction l with
  | nil =>
    intro _
    simp [insertStable]
  | cons b bs ih =>
    intro hp
    rw [List.pairwise_cons] at hp
    obtain ⟨hb, hbs⟩ := hp
    rw [insertStable]
    split
    · rename_i hcond
      rw [Bool.and_eq_true, Bool.not_eq_true'] at hcond
      refine List.Pairwise.cons ?_ (List.Pairwise.cons hb hbs)
      intro x hx
      rcases List.mem_cons.mp hx with rfl | hx
      · exact hcond.1
      · exact htrans a b x hcond.1 (hb x hx)
    · rename_i hcond
      rw [Bool.and_eq_true, Bool.not_eq_true'] at hcond
      have hba : le b a = true := by
        rcases Bool.or_eq_true_iff.mp (htot a b) with h | h
        · by_contra hba
          exact hcond ⟨h, Bool.eq_false_iff.mpr hba⟩
        · exact h
      refine List.Pairwise.cons ?_ (ih hbs)
      intro x hx
      rcases (mem_insertStable le a x bs).mp hx with rfl | hx
      · exact hba
      · exact hb x hx

theorem pairwise_foldl_insertStable {α : Type} (le : α → α → Bool)
    (htot : ∀ a b, (le a b || le b a) = true)
    (htrans : ∀ a b c, le a b = true → le b c = true → le a c = true) :
    ∀ (l : List α) (acc : List α), acc.Pairwise (le · · = true) →
      (l.foldl (fun acc a => insertStable le a acc) acc).Pairwise (le · · = true) := by
  intro l
  induction l with
  | nil =>
    intro acc h
    simpa using h
  | cons a t ih =>
    intro acc h
    exact ih _ (pairwise_insertStable le htot htrans a acc h)

theorem pairwise_sortBy {α : Type} (le : α → α → Bool)
    (htot : ∀ a b, (le a b || le b a) = true)
    (htrans : ∀ a b c, le a b = true → le b c = true → le a c = true) (l : List α) :
    (sortBy le l).Pairwise (le · · = true) :=
  pairwise_foldl_insertStable le htot htrans l [] (by simp)

theorem bytesLe_total : ∀ a b : List Nat, (bytesLe a b || bytesLe b a) = true := by
  intro a
  induction a with
  | nil =>
    intro b
    simp [bytesLe]
  | cons x xs ih =>
    intro b
    cases b with
    | nil => simp [bytesLe]
    | cons y ys =>
      by_cases hxy : x < y
      · simp [bytesLe, hxy]
      · by_cases hyx : y < x
        · simp [bytesLe, hxy, hyx]
        · simpa [bytesLe, hxy, hyx] using ih ys

theorem bytesLe_trans : ∀ a b c : List Nat,
    bytesLe a b = true → bytesLe b c = true → bytesLe a c = true := by
  intro a
  induction a with
  | nil =>
    intro b c _ _
    simp [bytesLe]
  | cons x xs ih =>
    intro b c h1 h2
    cases b with
    | nil => simp [bytesLe] at h1
    | cons y ys =>
      cases c with
      | nil => simp [bytesLe] at h2
      | cons z zs =>
        by_cases hxy : x < y
        · by_cases hyz : y < z
          · simp [bytesLe, show x < z by omega]
          · by_cases hzy : z < y
            · simp [bytesLe, hyz, hzy] at h2
            · simp [bytesLe, show x < z by omega]
        · by_cases hyx : y < x
          · simp [bytesLe, hxy, hyx] at h1
          · have hxey : x = y := by omega
            subst hxey
            by_cases hxz : x < z
            · simp [bytesLe, hxz]
            · by_cases hzx : z < x
              · simp [bytesLe, hzx, show ¬ x < z by omega] at h2
              · simp [bytesLe, hxy, hxz, hzx] at h1 h2 ⊢
                exact ih ys zs h1 h2

theorem funLE_total : ∀ a b : ExtractedFunction, (funLE a b || funLE b a) = true := by
  intro a b
  by_cases h1 : a.line < b.line
  · simp [funLE, h1]
  · by_cases h2 : b.line < a.line
    · simp [funLE, h1, h2]
    · simpa [funLE, h1, h2] using bytesLe_total a.name b.name

theorem funLE_trans : ∀ a b c : ExtractedFunction,
    funLE a b = true → funLE b c = true → funLE a c = true := by
  intro a b c h1 h2
  rw [funLE] at h1 h2 ⊢
  split at h1
  · split at h2
    · simp [show a.line < c.line by omega]
    · split at h2
      · simp at h2
      · simp [show a.line < c.line by omega]
  · split at h1
    · simp at h1
    · split at h2
      · simp [show a.line < c.line by omega]
      · split at h2
        · simp at h2
        · simp [show ¬ a.line < c.line by omega, show ¬ c.line < a.line by omega]
          exact bytesLe_trans _ _ _ h1 h2

theorem typeLE_total : ∀ a b : ExtractedType, (typeLE a b || typeLE b a) = true := by
  intro a b
  by_cases h1 : a.line < b.line
  · simp [typeLE, h1]
  · by_cases h2 : b.line < a.line
    · simp [typeLE, h1, h2]
    · simpa [typeLE, h1, h2] using bytesLe_total a.name b.name

theorem typeLE_trans : ∀ a b c : ExtractedType,
    typeLE a b = true → typeLE b c = true → typeLE a c = true := by
  intro a b c h1 h2
  rw [typeLE] at h1 h2 ⊢
  split at h1
  · split at h2
    · simp [show a.line < c.line by omega]
    · split at h2
      · simp at h2
      · simp [show a.line < c.line by omega]
  · split at h1
    · simp at h1
    · split at h2
      · simp [show a.line < c.line by omega]
      · split at h2
        · simp at h2
        · simp [show ¬ a.line < c.line by omega, show ¬ c.line < a.line by omega]
          exact bytesLe_trans _ _ _ h1 h2

theorem sortExports_sorted (e : ExtractedExports) :
    (sortExports e).functions.Pairwise (funLE · · = true)
      ∧ (sortExports e).types.Pairwise (typeLE · · = true) :=
  ⟨pairwise_sortBy funLE funLE_total funLE_trans e.functions,
   pairwise_sortBy typeLE typeLE_total typeLE_trans e.types⟩

theorem blockExtract_eq (p : TsExportParser) (b : VueScriptBlock) :
    blockExtract p b =
      match blockParse p b with
      | none => Except.error "failed to parse file"
      | some tree =>
        if tree.hasError then Except.error "syntax parse error"
        else Except.ok (extract_from_tree tree b.content) := by
  cases b with
  | mk c o k => cases k <;> rfl

theorem vueLoop_ok_sortExports (p : TsExportParser) :
    ∀ (blocks : List VueScriptBlock) (acc : ExtractedExports) (e : ExtractedExports),
      vueLoop p blocks acc = Except.ok e → ∃ all, e = sortExports all := by
  intro blocks
  induction blocks with
  | nil =>
    intro acc e h
    rw [vueLoop] at h
    cases h
    exact ⟨acc, rfl⟩
  | cons b rest ih =>
    intro acc e h
    rw [vueLoop] at h
    cases hbe : blockExtract p b with
    | error s =>
      rw [hbe] at h
      simp at h
    | ok ex =>
      rw [hbe] at h
      exact ih _ e h

theorem vueLoop_all_ok (p : TsExportParser) :
    ∀ (blocks : List VueScriptBlock) (acc : ExtractedExports),
      (∀ b ∈ blocks, ∃ eb, blockExtract p b = Except.ok eb) →
      vueLoop p blocks acc = Except.ok (sortExports
        ⟨acc.functions ++ blocks.flatMap
            (fun b => (okExports (blockExtract p b)).functions.map (shiftFun b.line_offset)),
         acc.types ++ blocks.flatMap
            (fun b => (okExports (blockExtract p b)).types.map (shiftTy b.line_offset))⟩) := by
  intro blocks
  induction blocks with
  | nil =>
    intro acc _
    simp [vueLoop]
  | cons b rest ih =>
    intro acc hall
    obtain ⟨eb, heb⟩ := hall b (List.mem_cons_self _ _)
    rw [vueLoop, heb]
    show vueLoop p rest
        ⟨acc.functions ++ eb.functions.map (shiftFun b.line_offset),
         acc.types ++ eb.types.map (shiftTy b.line_offset)⟩ = _
    rw [ih _ (fun x hx => hall x (List.mem_cons_of_mem _ hx))]
    simp [okExports, heb, List.flatMap_cons, List.append_assoc]

theorem vueLoop_first_error (p : TsExportParser) :
    ∀ (blocks : List VueScriptBlock) (acc : ExtractedExports),
      (∀ b ∈ blocks, ∃ t, blockParse p b = some t) →
      (∃ b ∈ blocks, ∃ t, blockParse p b = some t ∧ t.hasError = true) →
      vueLoop p blocks acc = Except.error "syntax parse error" := by
  intro blocks
  induction blocks with
  | nil =>
    intro acc _ habs
    simp at habs
  | cons b rest ih =>
    intro acc hall ⟨bw, hbw, tw, htw, herr⟩
    obtain ⟨t, ht⟩ := hall b (List.mem_cons_self _ _)
    rw [vueLoop, blockExtract_eq, ht]
    by_cases he : t.hasError
    · simp [he]
    · simp only [he, if_false]
      apply ih _ (fun x hx => hall x (List.mem_cons_of_mem _ hx))
      rcases List.mem_cons.mp hbw with rfl | hbw
      · rw [ht] at htw
        cases htw
        exact absurd herr (by simpa using he)
      · exact ⟨bw, hbw, tw, htw, herr⟩

theorem scanLoop_shape (source : List Nat) : ∀ (fuel searchFrom : Nat) (b : VueScriptBlock),
    b ∈ scanLoop source searchFrom fuel →
    ∃ tagStart tagEnd closeStart : Nat,
      strBytes "<script" <+: (toLowerStr source).drop tagStart ∧
      [62] <+: (toLowerStr source).drop tagEnd ∧
      strBytes "</script>" <+: (toLowerStr source).drop closeStart ∧
      tagStart ≤ tagEnd ∧ tagEnd + 1 ≤ closeStart ∧
      containsSub (slice (toLowerStr source) (tagStart + 7) tagEnd) (strBytes "src=") = false ∧
      b.kind = classifyAttrs (slice (toLowerStr source) (tagStart + 7) tagEnd) ∧
      b.content = slice source (tagEnd + 1) closeStart ∧
      b.line_offset = (source.take (tagEnd + 1)).count 10 := by
  intro fuel
  induction fuel with
  | zero =>
    intro searchFrom b h
    simp [scanLoop] at h
  | succ n ih =>
    intro searchFrom b h
    rw [scanLoop] at h
    simp only at h
    split at h
    · simp at h
    · rename_i tagRel h1
      split at h
      · simp at h
      · rename_i tagEndRel h2
        split at h
        · simp at h
        · rename_i closeRel h3
          split at h
          · exact ih _ b h
          · rename_i hsrc
            rcases List.mem_cons.mp h with rfl | hrest
            · refine ⟨searchFrom + tagRel, searchFrom + tagRel + tagEndRel,
                searchFrom + tagRel + tagEndRel + 1 + closeRel, ?_, ?_, ?_, ?_, ?_, ?_, ?_, ?_, ?_⟩
              · have := findSub_prefix _ _ _ h1
                rwa [List.drop_drop] at this
              · have := findSub_prefix _ _ _ h2
                rwa [List.drop_drop] at this
              · have := findSub_prefix _ _ _ h3
                rwa [List.drop_drop] at this
              · omega
              · omega
              · simpa using hsrc
              · rfl
              · rfl
              · rfl
            · exact ih _ b hrest

theorem foldl_exportStep_skip (source : List Nat) :
    ∀ l : List RawNode, (∀ c ∈ l, ∀ acc, exportStep source acc c = acc) →
      ∀ acc, l.foldl (exportStep source) acc = acc := by
  intro l
  induction l with
  | nil =>
    intro _ acc
    rfl
  | cons c t ih =>
    intro h acc
    rw [List.foldl_cons, h c (List.mem_cons_self _ _) acc]
    exact ih (fun x hx => h x (List.mem_cons_of_mem _ hx)) acc

/-- C1: for every extraction result, whatever the dialect and however many
composite script regions contributed, the callables and the types sequences
are each sorted ascending by `(line, name)` lexicographically. -/
theorem sorted_by_line_name_invariant (p : TsExportParser) (source : List Nat)
    (kind : SourceKind) (e : ExtractedExports)
    (h : extract_exports_for_source p source kind = Except.ok e) :
    e.functions.Pairwise (funLE · · = true) ∧ e.types.Pairwise (typeLE · · = true) := by
  cases kind with
  | Ts =>
    rw [extract_exports_for_source, extract_exports_from_ts, parse_with] at h
    split at h
    · simp at h
    · rename_i tree _
      split at h
      · simp at h
      · cases h
        exact sortExports_sorted _
  | Tsx =>
    rw [extract_exports_for_source, extract_exports_from_tsx, parse_with] at h
    split at h
    · simp at h
    · rename_i tree _
      split at h
      · simp at h
      · cases h
        exact sortExports_sorted _
  | Vue =>
    rw [extract_exports_for_source, extract_exports_from_vue] at h
    obtain ⟨all, rfl⟩ := vueLoop_ok_sortExports p _ _ e h
    exact sortExports_sorted all

/-- C1 witness: the `greet` extraction run is sorted. -/
theorem sorted_by_line_name_invariant_witness :
    (ExtractedExports.mk [⟨strBytes "greet", strBytes "greet(name: string) : string", 1⟩]
        []).functions.Pairwise (funLE · · = true)
      ∧ (ExtractedExports.mk [⟨strBytes "greet", strBytes "greet(name: string) : string", 1⟩]
        []).types.Pairwise (typeLE · · = true) :=
  sorted_by_line_name_invariant pGreet greetSrc SourceKind.Ts _ rfl

/-- C2: under every dialect, a parsed tree that reports a syntax error anywhere
(for Plain/JsxFlavored the whole text's tree, for Composite any one script
region's tree, when the provider produces a tree for each region) makes the
whole file fail with exactly the string `syntax parse error`; the error result
carries no callables and no types. -/
theorem syntax_error_fails_whole_file :
    (∀ (p : TsExportParser) (source : List Nat) (tree : Tree),
        p.tsParse source = some tree → tree.hasError = true →
        extract_exports_for_source p source SourceKind.Ts = Except.error "syntax parse error")
    ∧ (∀ (p : TsExportParser) (source : List Nat) (tree : Tree),
        p.tsxParse source = some tree → tree.hasError = true →
        extract_exports_for_source p source SourceKind.Tsx = Except.error "syntax parse error")
    ∧ (∀ (p : TsExportParser) (source : List Nat),
        (∀ b ∈ extract_vue_scripts source, ∃ t, blockParse p b = some t) →
        (∃ b ∈ extract_vue_scripts source, ∃ t, blockParse p b = some t ∧ t.hasError = true) →
        extract_exports_for_source p source SourceKind.Vue
          = Except.error "syntax parse error") := by
  refine ⟨?_, ?_, ?_⟩
  · intro p source tree hp herr
    rw [extract_exports_for_source, extract_exports_from_ts, parse_with, hp]
    simp [herr]
  · intro p source tree hp herr
    rw [extract_exports_for_source, extract_exports_from_tsx, parse_with, hp]
    simp [herr]
  · intro p source hall hex
    rw [extract_exports_for_source, extract_exports_from_vue]
    exact vueLoop_first_error p _ _ hall hex

/-- C2 witness: a one-region composite file whose region parses to an
error-reporting tree fails with `syntax parse error`. -/
theorem syntax_error_fails_whole_file_witness :
    extract_exports_for_source pErr (strBytes "<script>x</script>") SourceKind.Vue
      = Except.error "syntax parse error" :=
  syntax_error_fails_whole_file.2.2 pErr (strBytes "<script>x</script>")
    (fun b _ => ⟨errTree, by cases b with | mk c o k => cases k <;> rfl⟩)
    ⟨⟨strBytes "x", 0, SourceKind.Ts⟩, by decide, errTree, rfl, rfl⟩

/-- C3: every region's `line_offset` is the count of newline bytes in the
composite text strictly before the region's content start, and when every
region extracts successfully, the merged result is exactly the sorted
concatenation of the per-region extractions with every line number increased
by exactly that region's `line_offset`. -/
theorem region_offset_and_shift :
    (∀ (source : List Nat) (b : VueScriptBlock), b ∈ extract_vue_scripts source →
      ∃ contentStart contentEnd : Nat,
        b.content = slice source contentStart contentEnd ∧
        b.line_offset = (source.take contentStart).count 10)
    ∧ (∀ (p : TsExportParser) (source : List Nat),
        (∀ b ∈ extract_vue_scripts source, ∃ eb, blockExtract p b = Except.ok eb) →
        extract_exports_from_vue p source = Except.ok (sortExports
          ⟨(extract_vue_scripts source).flatMap
              (fun b => (okExports (blockExtract p b)).functions.map (shiftFun b.line_offset)),
           (extract_vue_scripts source).flatMap
              (fun b => (okExports (blockExtract p b)).types.map (shiftTy b.line_offset))⟩)) := by
  constructor
  · intro source b hb
    obtain ⟨ts, te, cs, _, _, _, _, _, _, _, hcont, hoff⟩ :=
      scanLoop_shape source _ 0 b hb
    exact ⟨te + 1, cs, hcont, hoff⟩
  · intro p source hall
    rw [extract_exports_from_vue, vueLoop_all_ok p _ _ hall]
    simp

/-- C3 witness: a composite file with one newline before its single region. -/
theorem region_offset_and_shift_witness :
    (∃ contentStart contentEnd : Nat,
      (VueScriptBlock.mk (strBytes "x") 1 SourceKind.Ts).content
          = slice (strBytes "a\n<script>x</script>") contentStart contentEnd ∧
        (VueScriptBlock.mk (strBytes "x") 1 SourceKind.Ts).line_offset
          = ((strBytes "a\n<script>x</script>").take contentStart).count 10)
    ∧ extract_exports_from_vue pTriv (strBytes "a\n<script>x</script>")
        = Except.ok (sortExports
          ⟨(extract_vue_scripts (strBytes "a\n<script>x</script>")).flatMap
              (fun b => (okExports (blockExtract pTriv b)).functions.map (shiftFun b.line_offset)),
           (extract_vue_scripts (strBytes "a\n<script>x</script>")).flatMap
              (fun b => (okExports (blockExtract pTriv b)).types.map (shiftTy b.line_offset))⟩) :=
  ⟨region_offset_and_shift.1 (strBytes "a\n<script>x</script>") ⟨strBytes "x", 1, SourceKind.Ts⟩
      (by decide),
   region_offset_and_shift.2 pTriv (strBytes "a\n<script>x</script>")
      (fun b _ => ⟨⟨[], []⟩, by cases b with | mk c o k => cases k <;> rfl⟩)⟩

/-- C4: a top-level exported plain function declaration with a name field
yields exactly one callable, named by the name-field text, with signature
`name+parameters` when no return-type annotation is present and
`name+parameters+" "+trimmed-return-type-text` otherwise (a present annotation
has nonempty trimmed text), and line the name node's starting row plus one. -/
theorem exported_function_one_callable (t : Tree) (source : List Nat)
    (stmt d nm ps : RawNode)
    (hroot : t.rootNode.children = [stmt])
    (hstmt : stmt.kind = "export_statement")
    (hfnc : first_named_child stmt = some d)
    (hdk : d.kind = "function_declaration")
    (hnm : d.childByFieldName "name" = some nm)
    (hps : d.childByFieldName "parameters" = some ps) :
    (d.childByFieldName "return_type" = none →
      extract_from_tree t source =
        ⟨[⟨text_for nm source, text_for nm source ++ text_for ps source, nm.startRow + 1⟩], []⟩)
    ∧ (∀ rt, d.childByFieldName "return_type" = some rt →
        trimBytes (text_for rt source) ≠ [] →
        extract_from_tree t source =
          ⟨[⟨text_for nm source,
             text_for nm source ++ text_for ps source ++ 32 :: trimBytes (text_for rt source),
             nm.startRow + 1⟩], []⟩) := by
  constructor
  · intro hret
    rw [extract_from_tree, hroot, List.foldl_cons, List.foldl_nil, exportStep]
    simp [hstmt, hfnc, hdk, function_declaration_export, hnm, hps, hret,
      sortExports, sortBy, insertStable]
  · intro rt hret hne
    rw [extract_from_tree, hroot, List.foldl_cons, List.foldl_nil, exportStep]
    simp [hstmt, hfnc, hdk, function_declaration_export, hnm, hps, hret, hne,
      sortExports, sortBy, insertStable]

/-- C4 witness: `export function greet(name: string): string { return name }`
yields exactly the callable `greet` / `greet(name: string) : string` / line 1. -/
theorem exported_function_one_callable_witness :
    extract_from_tree greetTree greetSrc =
      ⟨[⟨strBytes "greet", strBytes "greet(name: string) : string", 1⟩], []⟩ :=
  ((exported_function_one_callable greetTree greetSrc _ greetFnNode greetNameNode
      greetParamsNode rfl rfl rfl rfl rfl rfl).2 greetRetNode rfl (by decide)).trans (by decide)

/-- C6: for a top-level exported const declarator bound to a simple identifier
whose initializer is an arrow function, a parameter-list text that does not
start with `(` (the single-bare-parameter shorthand; the code tests this after
`trim_start`) is wrapped in parentheses inside the emitted signature; in
particular `export const id = x => x;` yields the signature `id(x)`. -/
theorem arrow_bare_param_wrapped :
    (∀ (name : List Nat) (name_node vnode pn : RawNode) (source : List Nat),
      (vnode.childByFieldName "parameters" = some pn ∨
        (vnode.childByFieldName "parameters" = none
          ∧ vnode.childByFieldName "parameter" = some pn)) →
      (trimStart (text_for pn source)).head? ≠ some 40 →
      ∃ suffix, (build_from_arrow name name_node vnode source).signature
        = name ++ (40 :: (text_for pn source ++ [41])) ++ suffix)
    ∧ extract_exports_for_source pId idSrc SourceKind.Ts
        = Except.ok ⟨[⟨strBytes "id", strBytes "id(x)", 1⟩], []⟩ := by
  constructor
  · intro name name_node vnode pn source hp hnp
    have hbeq : ((trimStart (text_for pn source)).head? == some 40) = false := by
      simpa using hnp
    cases hrt : vnode.childByFieldName "return_type" with
    | none =>
      refine ⟨[], ?_⟩
      rcases hp with h | ⟨h1, h2⟩
      · simp [build_from_arrow, h, hbeq, hrt]
      · simp [build_from_arrow, h1, h2, hbeq, hrt]
    | some rt =>
      by_cases hie : (trimBytes (text_for rt source)).isEmpty
      · refine ⟨[], ?_⟩
        rcases hp with h | ⟨h1, h2⟩
        · simp [build_from_arrow, h, hbeq, hrt, hie]
        · simp [build_from_arrow, h1, h2, hbeq, hrt, hie]
      · refine ⟨32 :: trimBytes (text_for rt source), ?_⟩
        rcases hp with h | ⟨h1, h2⟩
        · simp [build_from_arrow, h, hbeq, hrt, hie]
        · simp [build_from_arrow, h1, h2, hbeq, hrt, hie]
  · rfl

/-- C6 witness: the bare parameter `x` of `export const id = x => x;` is
wrapped, so the signature starts `id(x)`. -/
theorem arrow_bare_param_wrapped_witness :
    ∃ suffix, (build_from_arrow (strBytes "id")
        (RawNode.mk "identifier" true (some "name") 13 15 0 []) idArrowNode idSrc).signature
      = strBytes "id"
        ++ (40 :: (text_for (RawNode.mk "identifier" true (some "parameter") 18 19 0 []) idSrc
            ++ [41])) ++ suffix :=
  arrow_bare_param_wrapped.1 (strBytes "id") _ idArrowNode _ idSrc
    (Or.inr ⟨rfl, rfl⟩) (by decide)

/-- C7: only top-level export statements are considered, and an export
statement whose named children are all re-export clauses or namespace exports
contributes nothing; in particular `function internalFn() {}` with
`export { internalFn }` and `export { externalFn } from "./dep"` produces zero
callables and zero types. -/
theorem reexports_yield_nothing :
    (∀ (t : Tree) (source : List Nat),
      (∀ c ∈ t.rootNode.children, c.kind = "export_statement" →
        ∀ d ∈ c.namedChildren, d.kind = "export_clause" ∨ d.kind = "namespace_export") →
      extract_from_tree t source = ⟨[], []⟩)
    ∧ extract_from_tree reexTree reexSrc = ⟨[], []⟩ := by
  constructor
  · intro t source hcl
    rw [extract_from_tree]
    rw [foldl_exportStep_skip source _ ?_ ⟨[], []⟩]
    · rfl
    · intro c hc acc
      rw [exportStep]
      by_cases hk : c.kind = "export_statement"
      · have hnone : first_named_child c = none := by
          rw [first_named_child, List.find?_eq_none]
          intro d hd
          rcases hcl c hc hk d hd with h | h <;> simp [h]
        simp [hk, hnone]
      · simp [hk]
  · rfl

/-- C7 witness: a file holding only `export { x }` extracts nothing. -/
theorem reexports_yield_nothing_witness :
    extract_from_tree c7Tree (strBytes "export { x }") = ⟨[], []⟩ :=
  reexports_yield_nothing.1 c7Tree (strBytes "export { x }") (by
    intro c hc hk d hd
    rw [show c7Tree.rootNode.children = [c7Stmt] from rfl] at hc
    have hc2 : c = c7Stmt := by simpa using hc
    subst hc2
    rw [show c7Stmt.namedChildren = [c7Clause] from rfl] at hd
    have hd2 : d = c7Clause := by simpa using hd
    subst hd2
    exact Or.inl rfl)

/-- C8: when region scanning finds an opening script tag with no subsequent
`>`, or finds no closing script tag after the opening tag's `>`, the scan loop
returns no further regions and signals no error, so the file yields exactly
the regions found before the truncation point. -/
theorem scan_truncation_silent (source : List Nat) (searchFrom fuel : Nat)
    (h : ∃ tagRel,
      findSub ((toLowerStr source).drop searchFrom) (strBytes "<script") = some tagRel
      ∧ (findSub ((toLowerStr source).drop (searchFrom + tagRel)) [62] = none
        ∨ ∃ tagEndRel,
            findSub ((toLowerStr source).drop (searchFrom + tagRel)) [62] = some tagEndRel
            ∧ findSub ((toLowerStr source).drop (searchFrom + tagRel + tagEndRel + 1))
                (strBytes "</script>") = none)) :
    scanLoop source searchFrom fuel = [] := by
  obtain ⟨tagRel, h1, hrest⟩ := h
  cases fuel with
  | zero => rfl
  | succ n =>
    rw [scanLoop]
    simp only
    split
    · rfl
    · rename_i tagRel2 h1b
      rw [h1] at h1b
      cases Option.some.inj h1b
      split
      · rfl
      · rename_i teRel h2b
        rcases hrest with h2 | ⟨teRel0, h2, h3⟩
        · rw [h2] at h2b
          cases h2b
        · rw [h2] at h2b
          cases Option.some.inj h2b
          split
          · rfl
          · rename_i cRel h3b
            rw [h3] at h3b
            cases h3b

/-- C8 witness: `a<script>no close` has an opening tag and a `>` but no closing
tag, and the scan (at the fuel the scanner actually uses for this text) yields
no region and no error. -/
theorem scan_truncation_silent_witness :
    scanLoop (strBytes "a<script>no close") 0 18 = [] :=
  scan_truncation_silent (strBytes "a<script>no close") 0 18
    ⟨1, by decide, Or.inr ⟨7, by decide, by decide⟩⟩

/-- C9: ASCII lowercasing preserves length, and every returned region's
content is the verbatim slice of the original (case-preserving) source
strictly between an occurrence of `>` (at a position where the lowercased
copy matches the scanner's tag patterns) and the start of an occurrence of the
closing tag. -/
theorem region_content_verbatim (source : List Nat) (b : VueScriptBlock)
    (hb : b ∈ extract_vue_scripts source) :
    (toLowerStr source).length = source.length
    ∧ ∃ tagStart tagEnd closeStart : Nat,
        strBytes "<script" <+: (toLowerStr source).drop tagStart ∧
        [62] <+: (toLowerStr source).drop tagEnd ∧
        strBytes "</script>" <+: (toLowerStr source).drop closeStart ∧
        tagStart ≤ tagEnd ∧ tagEnd + 1 ≤ closeStart ∧
        b.content = slice source (tagEnd + 1) closeStart := by
  refine ⟨by simp [toLowerStr], ?_⟩
  obtain ⟨ts, te, cs, h1, h2, h3, h4, h5, hsrc, hkind, hcont, hoff⟩ :=
    scanLoop_shape source _ 0 b hb
  exact ⟨ts, te, cs, h1, h2, h3, h4, h5, hcont⟩

/-- C9 witness: in `<SCRIPT>Mixed</SCRIPT>` the tags are found in the
lowercased copy but the content `Mixed` keeps the original casing. -/
theorem region_content_verbatim_witness :
    (toLowerStr (strBytes "<SCRIPT>Mixed</SCRIPT>")).length
      = (strBytes "<SCRIPT>Mixed</SCRIPT>").length
    ∧ ∃ tagStart tagEnd closeStart : Nat,
        strBytes "<script" <+: (toLowerStr (strBytes "<SCRIPT>Mixed</SCRIPT>")).drop tagStart ∧
        [62] <+: (toLowerStr (strBytes "<SCRIPT>Mixed</SCRIPT>")).drop tagEnd ∧
        strBytes "</script>" <+: (toLowerStr (strBytes "<SCRIPT>Mixed</SCRIPT>")).drop closeStart ∧
        tagStart ≤ tagEnd ∧ tagEnd + 1 ≤ closeStart ∧
        (VueScriptBlock.mk (strBytes "Mixed") 0 SourceKind.Ts).content
          = slice (strBytes "<SCRIPT>Mixed</SCRIPT>") (tagEnd + 1) closeStart :=
  region_content_verbatim (strBytes "<SCRIPT>Mixed</SCRIPT>")
    ⟨strBytes "Mixed", 0, SourceKind.Ts⟩ (by decide)

/-- C10: a classified function, interface or type-alias declaration lacking a
name field is skipped silently — the helper builders return `none` and the
extraction stays total and yields nothing for it. -/
theorem missing_name_skipped :
    (∀ (n : RawNode) (source : List Nat), n.childByFieldName "name" = none →
      function_declaration_export n source = none ∧ type_like_export n source = none)
    ∧ (∀ (t : Tree) (source : List Nat) (stmt d : RawNode),
        t.rootNode.children = [stmt] → stmt.kind = "export_statement" →
        first_named_child stmt = some d →
        (d.kind = "function_declaration" ∨ d.kind = "interface_declaration"
          ∨ d.kind = "type_alias_declaration") →
        d.childByFieldName "name" = none →
        extract_from_tree t source = ⟨[], []⟩) := by
  constructor
  · intro n source h
    constructor
    · rw [function_declaration_export, h]
    · rw [type_like_export, h]
  · intro t source stmt d hroot hstmt hfnc hdk hname
    rw [extract_from_tree, hroot, List.foldl_cons, List.foldl_nil, exportStep]
    rcases hdk with h | h | h
    · simp [hstmt, hfnc, h, function_declaration_export, hname, sortExports, sortBy]
    · simp [hstmt, hfnc, h, type_like_export, hname, sortExports, sortBy]
    · simp [hstmt, hfnc, h, type_like_export, hname, sortExports, sortBy]

/-- C10 witness: `export default function () {}` extracts nothing and does
not fail. -/
theorem missing_name_skipped_witness :
    extract_from_tree anonTree (strBytes "export default function () {}") = ⟨[], []⟩ :=
  missing_name_skipped.2 anonTree (strBytes "export default function () {}") _ anonFnNode
    rfl rfl rfl (Or.inl rfl) rfl

/-- C5 counterexample: in `<script lang=tsxfoo>a</script>` the tag's attribute
text ` lang=tsxfoo` carries a `lang` attribute whose value is `tsxfoo`, not
`tsx`, yet the region is classified `Tsx` — so classification is not
equivalent to carrying a `lang` attribute whose value equals `tsx`. -/
theorem dialect_lang_value_counterexample :
    extract_vue_scripts (strBytes "<script lang=tsxfoo>a</script>")
      = [⟨strBytes "a", 0, SourceKind.Tsx⟩]
    ∧ slice (toLowerStr (strBytes "<script lang=tsxfoo>a</script>")) 7 19
      = strBytes " lang=tsxfoo"
    ∧ specLangValueEqTsx (strBytes " lang=tsxfoo") = false :=
  ⟨by decide, by decide, by decide⟩

/-- C5 (amended): every region of a composite file whose opening tag lacks an
`src=` attribute is classified `Tsx` exactly when the lowercased attribute
text contains one of the substrings `lang="tsx"`, `lang='tsx'` or `lang=tsx`,
and `Ts` otherwise. -/
theorem dialect_substring_amended (source : List Nat) (b : VueScriptBlock)
    (hb : b ∈ extract_vue_scripts source) :
    ∃ tagStart tagEnd : Nat,
      strBytes "<script" <+: (toLowerStr source).drop tagStart ∧
      [62] <+: (toLowerStr source).drop tagEnd ∧
      containsSub (slice (toLowerStr source) (tagStart + 7) tagEnd) (strBytes "src=") = false ∧
      b.kind = classifyAttrs (slice (toLowerStr source) (tagStart + 7) tagEnd) := by
  obtain ⟨ts, te, cs, h1, h2, h3, h4, h5, hsrc, hkind, hcont, hoff⟩ :=
    scanLoop_shape source _ 0 b hb
  exact ⟨ts, te, h1, h2, hsrc, hkind⟩

/-- C5 amended witness: the unquoted `lang=tsx` region is classified `Tsx` by
the substring rule. -/
theorem dialect_substring_amended_witness :
    ∃ tagStart tagEnd : Nat,
      strBytes "<script" <+: (toLowerStr (strBytes "<script lang=tsx>a</script>")).drop tagStart ∧
      [62] <+: (toLowerStr (strBytes "<script lang=tsx>a</script>")).drop tagEnd ∧
      containsSub (slice (toLowerStr (strBytes "<script lang=tsx>a</script>")) (tagStart + 7)
          tagEnd) (strBytes "src=") = false ∧
      (VueScriptBlock.mk (strBytes "a") 0 SourceKind.Tsx).kind
        = classifyAttrs (slice (toLowerStr (strBytes "<script lang=tsx>a</script>"))
            (tagStart + 7) tagEnd) :=
  dialect_substring_amended (strBytes "<script lang=tsx>a</script>")
    ⟨strBytes "a", 0, SourceKind.Tsx⟩ (by decide)

end ContextMap
